import Mathlib

/-!
Verification of the `@memoized` TypeScript library (deep-equality memoization
decorator).  The embedding below translates the library's source:

* `deepEqual` — the recursive structural-equality comparator;
* `createMemoizedMethod` — the single-slot cache cell around a method
  (`previousArgs` / `calledOnce` / `cachedResult` closure state, `clearMemo`);
* `clearAllMemoized` and the `__memoizedClearFns` registry;
* the `memoized` decorator's legacy and Stage-3 branches (method and getter);
* the time-bounded (`memoizedTTL`) cell, whose implementation is not in the
  repository sources and is therefore modelled from the specification.

JavaScript values are embedded as the inductive type `Value`.  Aggregate
values (arrays, Maps, Sets, Dates, RegExps, plain objects, exotic objects)
carry an explicit reference tag `ref : Nat` so that the JavaScript strict
equality `===` — reference identity on objects, value identity on
primitives — is representable as `strictEq`.  Numbers are embedded as `Int`
(`-0` and the infinities behave like ordinary numbers under `===` and are
conflated with them); `NaN`, the one JavaScript number for which `x === x`
is false, is adjoined separately as `ValueN.vNaN` together with the
extended comparator `deepEqualWithNaN`, which settles the reflexivity
boundary of the comparator.
User-supplied `equals` methods on exotic objects are an external input to
the comparator; they are supplied as an oracle `EqualsEnv` mapping the
receiver's reference tag and the argument to the boolean the user code
returns.
-/

/-- A JavaScript value.  Aggregates carry a reference tag (first `Nat`
field) modelling object identity.  `vExotic` covers functions and
instances of user-defined classes (any object whose direct prototype is
not `Object.prototype` and which is not an array/Map/Set/Date/RegExp);
its `isFn` flag tells whether `typeof` yields `"function"`, and its
`hasEq` flag tells whether the object exposes an `equals` function. -/
inductive Value : Type where
  | vNull : Value
  | vUndef : Value
  | vNum : Int → Value
  | vStr : String → Value
  | vBool : Bool → Value
  | vDate : Nat → Int → Value
  | vRegExp : Nat → String → Value
  | vArr : Nat → List Value → Value
  | vMapV : Nat → List (Value × Value) → Value
  | vSetV : Nat → List Value → Value
  | vObj : Nat → List (String × Value) → Value
  | vExotic : Nat → Bool → Bool → Value

/-- Result category of JavaScript's `typeof` operator (the categories the
source inspects). `typeof null` is `"object"`. -/
inductive TypeTag : Type where
  | obj | undef | num | str | boolean | func
deriving DecidableEq

/-- The `typeof` operator on embedded values. -/
def typeTag : Value → TypeTag
  | .vNull => .obj
  | .vUndef => .undef
  | .vNum _ => .num
  | .vStr _ => .str
  | .vBool _ => .boolean
  | .vDate _ _ => .obj
  | .vRegExp _ _ => .obj
  | .vArr _ _ => .obj
  | .vMapV _ _ => .obj
  | .vSetV _ _ => .obj
  | .vObj _ _ => .obj
  | .vExotic _ isFn _ => if isFn then .func else .obj

/-- JavaScript loose-null test `x == null` (true exactly for `null` and
`undefined`). -/
def isNullish : Value → Bool
  | .vNull => true
  | .vUndef => true
  | _ => false

/-- JavaScript strict equality `===`: value identity on primitives,
reference identity on objects.  Values of different categories are never
strictly equal. -/
def strictEq : Value → Value → Bool
  | .vNull, .vNull => true
  | .vUndef, .vUndef => true
  | .vNum a, .vNum b => a == b
  | .vStr a, .vStr b => a == b
  | .vBool a, .vBool b => a == b
  | .vDate r _, .vDate s _ => r == s
  | .vRegExp r _, .vRegExp s _ => r == s
  | .vArr r _, .vArr s _ => r == s
  | .vMapV r _, .vMapV s _ => r == s
  | .vSetV r _, .vSetV s _ => r == s
  | .vObj r _, .vObj s _ => r == s
  | .vExotic r _ _, .vExotic s _ _ => r == s
  | _, _ => false

/-- The source's primitive-item test used for the array fast path:
`item === null || item === undefined ||
 (typeof item !== 'object' && typeof item !== 'function')`. -/
def isPrimItem : Value → Bool
  | .vNull => true
  | .vUndef => true
  | .vNum _ => true
  | .vStr _ => true
  | .vBool _ => true
  | _ => false

/-- `Map.prototype.has` on the entry list of a Map (SameValueZero key
comparison, which coincides with `===` on the embedded values). -/
def mapHas : List (Value × Value) → Value → Bool
  | [], _ => false
  | p :: es, k => strictEq k p.1 || mapHas es k

/-- `Map.prototype.get` on the entry list of a Map (`undefined` when the
key is absent). -/
def mapGet : List (Value × Value) → Value → Value
  | [], _ => .vUndef
  | p :: es, k => if strictEq k p.1 then p.2 else mapGet es k

/-- Property read `o[key]` on the own-field list of a plain object
(`undefined` when the field is absent). -/
def objGet : List (String × Value) → String → Value
  | [], _ => .vUndef
  | p :: fs, k => if p.1 = k then p.2 else objGet fs k

/-- The source's `typeof (a as any).equals === 'function'` test.  Only
exotic objects (via their flag) and plain objects owning an `equals`
field that holds a function can pass it. -/
def hasEqualsFn : Value → Bool
  | .vExotic _ _ hasEq => hasEq
  | .vObj _ fs => typeTag (objGet fs "equals") == TypeTag.func
  | _ => false

/-- Reference tag of an object value (used to address the `EqualsEnv`
oracle; primitives never reach the `equals` delegation). -/
def refOf : Value → Nat
  | .vDate r _ => r
  | .vRegExp r _ => r
  | .vArr r _ => r
  | .vMapV r _ => r
  | .vSetV r _ => r
  | .vObj r _ => r
  | .vExotic r _ _ => r
  | _ => 0

/-- Oracle for user-supplied `equals` methods: given the receiver's
reference tag and the comparison argument, the boolean the user's
`a.equals(b)` call returns. -/
abbrev EqualsEnv := Nat → Value → Bool

/-- Fuel-indexed body of `deepEqual`.  The source guards with
`if (depth <= 0) return false` and every recursive call passes
`depth - 1`, so the `Int` depth acts exactly as a fuel counter: fuel `0`
is the exhausted case and fuel `n+1` is one permitted level of
comparison.  The branch structure below mirrors the source line by line:
depth guard, `===` fast path, null handling, `typeof` mismatch,
primitive bail-out, Date, RegExp, arrays (with the all-primitive fast
path), Maps, Sets, plain objects, `equals` delegation, final `false`. -/
def deepEqualN (env : EqualsEnv) : Nat → Value → Value → Bool
  | 0, _, _ => false
  | n + 1, a, b =>
    if strictEq a b then true
    else if isNullish a || isNullish b then false
    else if typeTag a ≠ typeTag b then false
    else if typeTag a ≠ TypeTag.obj ∧ typeTag a ≠ TypeTag.func then false
    else
      match a, b with
      | .vDate _ ta, .vDate _ tb => ta == tb
      | .vRegExp _ pa, .vRegExp _ pb => pa == pb
      | .vArr _ xs, .vArr _ ys =>
        if xs.length ≠ ys.length then false
        else if xs.all isPrimItem then
          (xs.zip ys).all fun p => strictEq p.1 p.2
        else
          (xs.zip ys).all fun p => deepEqualN env n p.1 p.2
      | .vMapV _ aes, .vMapV _ bes =>
        if aes.length ≠ bes.length then false
        else aes.all fun p => mapHas bes p.1 && deepEqualN env n p.2 (mapGet bes p.1)
      | .vSetV _ xs, .vSetV _ ys =>
        if xs.length ≠ ys.length then false
        else xs.all fun x => ys.any fun y => deepEqualN env n x y
      | .vObj _ afs, .vObj _ bfs =>
        if afs.length ≠ bfs.length then false
        else afs.all fun p => deepEqualN env n p.2 (objGet bfs p.1)
      | x, y => if hasEqualsFn x then env (refOf x) y else false

/-- `deepEqual(a, b, depth)` from the source (the default depth at every
call site in the library is `100`).  `Int.toNat` realises the
`depth <= 0` guard: non-positive depth yields fuel `0`, which returns
`false`, and positive depth `d` yields fuel `d`, with each recursive
level consuming one unit exactly as `depth - 1` does. -/
def deepEqual (env : EqualsEnv) (a b : Value) (depth : Int) : Bool :=
  deepEqualN env depth.toNat a b

/-! ## The plain cache cell (`createMemoizedMethod`) -/

/-- Closure state of one memoized method: `previousArgs`, `calledOnce`
and `cachedResult` from `createMemoizedMethod`.  `cachedResult` starts as
JavaScript `undefined`. -/
structure Cell : Type where
  previousArgs : List Value
  calledOnce : Bool
  cachedResult : Value

/-- The closure state as it is when `createMemoizedMethod` has just run:
`previousArgs = []`, `calledOnce = false`, `cachedResult = undefined`. -/
def initCell : Cell := ⟨[], false, .vUndef⟩

/-- `previousArgs.length === args.length && args.every((arg, i) =>
deepEqual(arg, previousArgs[i]))` — the argument-comparison part of the
source's `isSame`, with `deepEqual` at its default depth `100`.
Position-wise iteration is rendered with `zip`; the length guard makes
the two readings coincide. -/
def argsMatch (env : EqualsEnv) (prevArgs newArgs : List Value) : Bool :=
  prevArgs.length == newArgs.length &&
    (newArgs.zip prevArgs).all fun p => deepEqual env p.1 p.2 100

/-- The source's `isSame` hit test:
`calledOnce && previousArgs.length === args.length && args.every(...)`. -/
def isSame (env : EqualsEnv) (c : Cell) (args : List Value) : Bool :=
  c.calledOnce && argsMatch env c.previousArgs args

/-- Observable outcome of one `memoizedFn(...args)` call: the value
returned or error thrown (`out`), the closure state afterwards (`cell`),
and whether the wrapped computation ran during the call (`computeRan`;
the code path can run it at most once per call). -/
structure InvokeResult (E : Type) : Type where
  out : Except E Value
  cell : Cell
  computeRan : Bool

/-- The body of `memoizedFn` from `createMemoizedMethod`.  A fallible
computation is a function into `Except`.  On a hit the stored result is
returned and nothing is mutated.  On a miss the source first executes
`previousArgs = [...args]` (a copy of the new arguments), then calls
`originalMethod`, and only afterwards stores the result and sets
`calledOnce = true`; hence when the computation throws, `previousArgs`
has already been overwritten while `cachedResult` and `calledOnce` keep
their old values. -/
def invokeCell {E : Type} (env : EqualsEnv)
    (compute : List Value → Except E Value)
    (c : Cell) (args : List Value) : InvokeResult E :=
  if isSame env c args then
    ⟨Except.ok c.cachedResult, c, false⟩
  else
    let c1 : Cell := { c with previousArgs := args }
    match compute args with
    | Except.ok r =>
      ⟨Except.ok r, { c1 with cachedResult := r, calledOnce := true }, true⟩
    | Except.error e => ⟨Except.error e, c1, true⟩

/-- `memoizedFn.clearMemo`: resets `previousArgs` to `[]`,
`cachedResult` to `undefined` and `calledOnce` to `false`. -/
def clearMemo (_c : Cell) : Cell := ⟨[], false, .vUndef⟩

/-! ## Sanity checks: the embedding against the repository's test vectors -/

/-- An `EqualsEnv` with no user `equals` behaviour (all `equals` calls
return false); used for concrete evaluations. -/
def env0 : EqualsEnv := fun _ _ => false

/-- Test vectors from the repository's `deepEqual` primitive tests. -/
theorem deepEqual_tests_primitives :
    deepEqual env0 (.vNum 1) (.vNum 1) 100 = true ∧
    deepEqual env0 (.vStr "test") (.vStr "test") 100 = true ∧
    deepEqual env0 (.vBool true) (.vBool true) 100 = true ∧
    deepEqual env0 .vNull .vNull 100 = true ∧
    deepEqual env0 .vUndef .vUndef 100 = true ∧
    deepEqual env0 (.vNum 1) (.vNum 2) 100 = false ∧
    deepEqual env0 (.vStr "test") (.vStr "other") 100 = false ∧
    deepEqual env0 (.vBool true) (.vBool false) 100 = false ∧
    deepEqual env0 .vNull .vUndef 100 = false := by
  decide

/-- Test vectors from the repository's array tests (reference-distinct
arrays; `[1,2,3] ~ [1,2,3]`, `[1,2,3] !~ [1,2,4]`, `[1,2,3] !~ [1,2]`,
`[] ~ []`). -/
theorem deepEqual_tests_arrays :
    deepEqual env0 (.vArr 1 [.vNum 1, .vNum 2, .vNum 3])
      (.vArr 2 [.vNum 1, .vNum 2, .vNum 3]) 100 = true ∧
    deepEqual env0 (.vArr 1 [.vNum 1, .vNum 2, .vNum 3])
      (.vArr 2 [.vNum 1, .vNum 2, .vNum 4]) 100 = false ∧
    deepEqual env0 (.vArr 1 [.vNum 1, .vNum 2, .vNum 3])
      (.vArr 2 [.vNum 1, .vNum 2]) 100 = false ∧
    deepEqual env0 (.vArr 1 []) (.vArr 2 []) 100 = true := by
  decide

/-- Test vectors from the repository's object tests
(`{a:1,b:2} ~ {a:1,b:2}`, `!~ {a:1,b:3}`, `!~ {a:1}`, `{} ~ {}`) and a
nested structure (`{a:[1,2],b:{c:3}}`). -/
theorem deepEqual_tests_objects :
    deepEqual env0 (.vObj 1 [("a", .vNum 1), ("b", .vNum 2)])
      (.vObj 2 [("a", .vNum 1), ("b", .vNum 2)]) 100 = true ∧
    deepEqual env0 (.vObj 1 [("a", .vNum 1), ("b", .vNum 2)])
      (.vObj 2 [("a", .vNum 1), ("b", .vNum 3)]) 100 = false ∧
    deepEqual env0 (.vObj 1 [("a", .vNum 1), ("b", .vNum 2)])
      (.vObj 2 [("a", .vNum 1)]) 100 = false ∧
    deepEqual env0 (.vObj 1 []) (.vObj 2 []) 100 = true ∧
    deepEqual env0
      (.vObj 1 [("a", .vArr 3 [.vNum 1, .vNum 2]), ("b", .vObj 4 [("c", .vNum 3)])])
      (.vObj 2 [("a", .vArr 5 [.vNum 1, .vNum 2]), ("b", .vObj 6 [("c", .vNum 3)])])
      100 = true := by
  decide

/-- Test vectors from the repository's Date, Map and Set tests. -/
theorem deepEqual_tests_special :
    deepEqual env0 (.vDate 1 1672531200000) (.vDate 2 1672531200000) 100 = true ∧
    deepEqual env0 (.vDate 1 1672531200000) (.vDate 2 1672617600000) 100 = false ∧
    deepEqual env0 (.vMapV 1 [(.vStr "a", .vNum 1), (.vStr "b", .vNum 2)])
      (.vMapV 2 [(.vStr "a", .vNum 1), (.vStr "b", .vNum 2)]) 100 = true ∧
    deepEqual env0 (.vMapV 1 [(.vStr "a", .vNum 1), (.vStr "b", .vNum 2)])
      (.vMapV 2 [(.vStr "a", .vNum 1), (.vStr "b", .vNum 3)]) 100 = false ∧
    deepEqual env0 (.vSetV 1 [.vNum 1, .vNum 2, .vNum 3])
      (.vSetV 2 [.vNum 1, .vNum 2, .vNum 3]) 100 = true ∧
    deepEqual env0 (.vSetV 1 [.vNum 1, .vNum 2, .vNum 3])
      (.vSetV 2 [.vNum 1, .vNum 2, .vNum 4]) 100 = false := by
  decide

/-! ## Basic lemmas about the comparator and the cell -/

/-- Strict equality is reflexive on `Value` (`x === x` holds for every
embedded value; the adjoined `NaN` — see `strictEqN` below — is the one
JavaScript exception). -/
theorem strictEq_refl (v : Value) : strictEq v v = true := by
  cases v <;> simp [strictEq]

/-- With at least one unit of fuel, `deepEqual` answers `true` on a
value compared with itself via the `===` fast path. -/
theorem deepEqualN_self (env : EqualsEnv) (n : Nat) (v : Value) :
    deepEqualN env (n + 1) v v = true := by
  simp [deepEqualN, strictEq_refl]

/-- `deepEqual(x, x)` at the library's default depth is `true`. -/
theorem deepEqual_self (env : EqualsEnv) (v : Value) :
    deepEqual env v v 100 = true := by
  have h : (100 : Int).toNat = 99 + 1 := by decide
  rw [deepEqual, h]
  exact deepEqualN_self env 99 v

/-- Pairs drawn from a list zipped with itself are diagonal. -/
theorem mem_zip_self {l : List Value} {p : Value × Value}
    (h : p ∈ l.zip l) : p.1 = p.2 := by
  induction l with
  | nil => cases h
  | cons a t ih =>
    rcases List.mem_cons.mp h with h1 | h1
    · rw [h1]
    · exact ih h1

/-- A list of arguments always matches itself under `argsMatch`. -/
theorem argsMatch_self (env : EqualsEnv) (l : List Value) :
    argsMatch env l l = true := by
  simp only [argsMatch, Bool.and_eq_true, beq_iff_eq, List.all_eq_true]
  refine ⟨by simp, fun p hp => ?_⟩
  rw [mem_zip_self hp]
  exact deepEqual_self env p.2

/-- The source's `isSame` test, spelt as the specification states the
hit condition: a previous run completed, the new argument list has the
stored length, and `deepEqual` holds position-wise. -/
theorem isSame_iff (env : EqualsEnv) (c : Cell) (args : List Value) :
    isSame env c args = true ↔
      (c.calledOnce = true ∧ c.previousArgs.length = args.length ∧
        ∀ p ∈ args.zip c.previousArgs, deepEqual env p.1 p.2 100 = true) := by
  simp [isSame, argsMatch, Bool.and_eq_true, List.all_eq_true]

/-- A cell that has not completed a run always misses, so the wrapped
computation runs. -/
theorem invoke_notRun_runs {E : Type} (env : EqualsEnv)
    (compute : List Value → Except E Value) (c : Cell) (args : List Value)
    (hc : c.calledOnce = false) :
    (invokeCell env compute c args).computeRan = true := by
  have hs : isSame env c args = false := by simp [isSame, hc]
  cases h : compute args <;> simp [invokeCell, hs, h]

/-! ## Claimed properties of the plain cell -/

/-- C1: if a previous invocation completed, the new argument list has
the stored length, and `deepEqual` holds position-wise, then `invoke`
returns the stored result unchanged, does not run the computation, and
leaves the cell untouched; otherwise the computation runs exactly once
and its result is returned and stored together with the new
arguments. -/
theorem c1_invoke_hit_and_miss (env : EqualsEnv) (f : List Value → Value)
    (c : Cell) (args : List Value) :
    ((c.calledOnce = true ∧ c.previousArgs.length = args.length ∧
        ∀ p ∈ args.zip c.previousArgs, deepEqual env p.1 p.2 100 = true) →
      ((invokeCell env (fun a => (Except.ok (f a) : Except Unit Value)) c args).out
          = Except.ok c.cachedResult ∧
        (invokeCell env (fun a => (Except.ok (f a) : Except Unit Value)) c args).computeRan
          = false ∧
        (invokeCell env (fun a => (Except.ok (f a) : Except Unit Value)) c args).cell = c)) ∧
    (¬(c.calledOnce = true ∧ c.previousArgs.length = args.length ∧
        ∀ p ∈ args.zip c.previousArgs, deepEqual env p.1 p.2 100 = true) →
      ((invokeCell env (fun a => (Except.ok (f a) : Except Unit Value)) c args).computeRan
          = true ∧
        (invokeCell env (fun a => (Except.ok (f a) : Except Unit Value)) c args).out
          = Except.ok (f args) ∧
        (invokeCell env (fun a => (Except.ok (f a) : Except Unit Value)) c args).cell.cachedResult
          = f args ∧
        (invokeCell env (fun a => (Except.ok (f a) : Except Unit Value)) c args).cell.previousArgs
          = args ∧
        (invokeCell env (fun a => (Except.ok (f a) : Except Unit Value)) c args).cell.calledOnce
          = true)) := by
  by_cases hs : isSame env c args = true
  · refine ⟨fun _ => ?_, fun hn => absurd ((isSame_iff env c args).mp hs) hn⟩
    simp [invokeCell, hs]
  · have hss : isSame env c args = false := by
      cases h : isSame env c args
      · rfl
      · exact absurd h hs
    refine ⟨fun hcond => absurd ((isSame_iff env c args).mpr hcond) hs, fun _ => ?_⟩
    simp [invokeCell, hss]

/-- C1 witness: a concrete hit (previous run with `[1]` cached `3`,
called again with an equal `[1]`). -/
theorem c1_witness :
    ((Cell.mk [Value.vNum 1] true (Value.vNum 3)).calledOnce = true ∧
      (Cell.mk [Value.vNum 1] true (Value.vNum 3)).previousArgs.length
        = [Value.vNum 1].length ∧
      ∀ p ∈ [Value.vNum 1].zip (Cell.mk [Value.vNum 1] true (Value.vNum 3)).previousArgs,
        deepEqual env0 p.1 p.2 100 = true) ∧
    ((invokeCell env0 (fun _ => (Except.ok (Value.vNum 3) : Except Unit Value))
        (Cell.mk [Value.vNum 1] true (Value.vNum 3)) [Value.vNum 1]).out
      = Except.ok (Cell.mk [Value.vNum 1] true (Value.vNum 3)).cachedResult ∧
      (invokeCell env0 (fun _ => (Except.ok (Value.vNum 3) : Except Unit Value))
        (Cell.mk [Value.vNum 1] true (Value.vNum 3)) [Value.vNum 1]).computeRan = false ∧
      (invokeCell env0 (fun _ => (Except.ok (Value.vNum 3) : Except Unit Value))
        (Cell.mk [Value.vNum 1] true (Value.vNum 3)) [Value.vNum 1]).cell
        = Cell.mk [Value.vNum 1] true (Value.vNum 3)) :=
  ⟨by decide,
    (c1_invoke_hit_and_miss env0 (fun _ => Value.vNum 3)
      (Cell.mk [Value.vNum 1] true (Value.vNum 3)) [Value.vNum 1]).1 (by decide)⟩

/-- C6: `clearMemo` resets `previousArgs` to `[]`, `cachedResult` to
`undefined` and `calledOnce` to `false`; it is idempotent and a no-op
on a never-invoked cell; and the next `invoke` after it always runs
the wrapped computation. -/
theorem c6_clearMemo_resets {E : Type} (env : EqualsEnv)
    (compute : List Value → Except E Value) (c : Cell) (args : List Value) :
    (clearMemo c).previousArgs = [] ∧
    (clearMemo c).calledOnce = false ∧
    (clearMemo c).cachedResult = Value.vUndef ∧
    clearMemo (clearMemo c) = clearMemo c ∧
    clearMemo initCell = initCell ∧
    (invokeCell env compute (clearMemo c) args).computeRan = true :=
  ⟨rfl, rfl, rfl, rfl, rfl, invoke_notRun_runs env compute (clearMemo c) args rfl⟩

/-- C3 counterexample: a cell that already completed a run with `[1]`
(cached result `10`) is invoked with `[2]` and the computation throws.
The error propagates and `calledOnce` / `cachedResult` survive, but
`previousArgs` is overwritten with `[2]` before the computation runs,
so the retry with the identical arguments `[2]` is a hit: it does not
run the computation and returns the stale result `10` cached for
`[1]` — contradicting "the cell is left exactly in its pre-call state"
and "a retry with identical arguments invokes the computation again". -/
theorem c3_counterexample :
    (invokeCell env0 (fun _ => (Except.error 0 : Except Nat Value))
        (Cell.mk [Value.vNum 1] true (Value.vNum 10)) [Value.vNum 2]).out
      = Except.error 0 ∧
    (invokeCell env0 (fun _ => (Except.error 0 : Except Nat Value))
        (Cell.mk [Value.vNum 1] true (Value.vNum 10)) [Value.vNum 2]).cell.previousArgs
      = [Value.vNum 2] ∧
    (invokeCell env0 (fun _ => (Except.error 0 : Except Nat Value))
        (invokeCell env0 (fun _ => (Except.error 0 : Except Nat Value))
          (Cell.mk [Value.vNum 1] true (Value.vNum 10)) [Value.vNum 2]).cell
        [Value.vNum 2]).computeRan = false ∧
    (invokeCell env0 (fun _ => (Except.error 0 : Except Nat Value))
        (invokeCell env0 (fun _ => (Except.error 0 : Except Nat Value))
          (Cell.mk [Value.vNum 1] true (Value.vNum 10)) [Value.vNum 2]).cell
        [Value.vNum 2]).out = Except.ok (Value.vNum 10) :=
  ⟨rfl, rfl, rfl, rfl⟩

/-- C3 amended: when the computation throws on a miss, the error
propagates unchanged, no result is stored and `calledOnce` keeps its
prior value, but `previousArgs` is overwritten with the new arguments
before the computation runs.  Hence a retry with the same arguments
runs the computation again when the cell had never completed a run,
while a cell that had completed a run hits and returns the stale
stored result. -/
theorem c3_error_amended {E : Type} (env : EqualsEnv)
    (compute : List Value → Except E Value) (c : Cell) (args : List Value) (e : E)
    (hmiss : isSame env c args = false) (herr : compute args = Except.error e) :
    (invokeCell env compute c args).out = Except.error e ∧
    (invokeCell env compute c args).cell.calledOnce = c.calledOnce ∧
    (invokeCell env compute c args).cell.cachedResult = c.cachedResult ∧
    (invokeCell env compute c args).cell.previousArgs = args ∧
    (c.calledOnce = false →
      (invokeCell env compute (invokeCell env compute c args).cell args).computeRan = true) ∧
    (c.calledOnce = true →
      (invokeCell env compute (invokeCell env compute c args).cell args).computeRan = false ∧
      (invokeCell env compute (invokeCell env compute c args).cell args).out
        = Except.ok c.cachedResult) := by
  have hcell : (invokeCell env compute c args).cell
      = Cell.mk args c.calledOnce c.cachedResult := by
    simp [invokeCell, hmiss, herr]
  refine ⟨by simp [invokeCell, hmiss, herr], by rw [hcell], by rw [hcell], by rw [hcell],
    fun hno => ?_, fun hyes => ?_⟩
  · rw [hcell]
    exact invoke_notRun_runs env compute _ args hno
  · have hhit : isSame env (Cell.mk args c.calledOnce c.cachedResult) args = true := by
      simp [isSame, hyes, argsMatch_self]
    rw [hcell]
    exact ⟨by simp [invokeCell, hhit], by simp [invokeCell, hhit]⟩

/-- C3 witness for the amended statement: the concrete scenario of the
counterexample (previous run with `[1]`, throwing call with `[2]`). -/
theorem c3_witness :
    (isSame env0 (Cell.mk [Value.vNum 1] true (Value.vNum 10)) [Value.vNum 2] = false) ∧
    ((fun _ => (Except.error 0 : Except Nat Value)) [Value.vNum 2] = Except.error 0) ∧
    ((Cell.mk [Value.vNum 1] true (Value.vNum 10)).calledOnce = true) ∧
    ((invokeCell env0 (fun _ => (Except.error 0 : Except Nat Value))
        (invokeCell env0 (fun _ => (Except.error 0 : Except Nat Value))
          (Cell.mk [Value.vNum 1] true (Value.vNum 10)) [Value.vNum 2]).cell
        [Value.vNum 2]).computeRan = false ∧
      (invokeCell env0 (fun _ => (Except.error 0 : Except Nat Value))
        (invokeCell env0 (fun _ => (Except.error 0 : Except Nat Value))
          (Cell.mk [Value.vNum 1] true (Value.vNum 10)) [Value.vNum 2]).cell
        [Value.vNum 2]).out
        = Except.ok (Cell.mk [Value.vNum 1] true (Value.vNum 10)).cachedResult) :=
  ⟨by decide, rfl, rfl,
    (c3_error_amended env0 (fun _ => (Except.error 0 : Except Nat Value))
      (Cell.mk [Value.vNum 1] true (Value.vNum 10)) [Value.vNum 2] 0
      (by decide) rfl).2.2.2.2.2 rfl⟩

/-! ## Instance sharing: Stage-3 versus legacy method branches -/

/-- Stage-3 method branch of `memoized`: for a decorator context of
kind `'method'`, the source returns
`createMemoizedMethod(target, context.name)` once, at class-definition
time.  The closure state is therefore one `Cell` shared by every
instance of the class; an invocation by instance `inst` runs the
underlying method with that instance as `this` (`compute inst`)
against the shared cell. -/
def stage3Invoke {E : Type} (env : EqualsEnv)
    (compute : Nat → List Value → Except E Value)
    (shared : Cell) (inst : Nat) (args : List Value) : InvokeResult E :=
  invokeCell env (compute inst) shared args

/-- Legacy method branch of `memoized`: the installed property getter
runs `createMemoizedMethod(value, key, this)` separately on each
instance (caching the resulting function on that instance with
`Object.defineProperty`), so each instance owns a separate `Cell`.
The per-class state is a map from instance to cell; an invocation
reads and replaces only the calling instance's cell. -/
def legacyInvoke {E : Type} (env : EqualsEnv)
    (compute : Nat → List Value → Except E Value)
    (cells : Nat → Cell) (inst : Nat) (args : List Value) :
    InvokeResult E × (Nat → Cell) :=
  let r := invokeCell env (compute inst) (cells inst) args
  (r, fun j => if j = inst then r.cell else cells j)

/-- C5 counterexample: under the Stage-3 method branch, instance `1`
computes (its method returns `1`), and the subsequent call by the
distinct instance `2` with equal arguments is a hit served from
instance `1`'s cached state: the computation does not run and the call
returns `1` rather than instance `2`'s own result `2` — contradicting
"an invocation on one instance never produces a hit from the cached
state observed by the other instance". -/
theorem c5_counterexample :
    (stage3Invoke env0
        (fun i _ => (Except.ok (Value.vNum (Int.ofNat i)) : Except Unit Value))
        initCell 1 [Value.vNum 7]).computeRan = true ∧
    (stage3Invoke env0
        (fun i _ => (Except.ok (Value.vNum (Int.ofNat i)) : Except Unit Value))
        (stage3Invoke env0
          (fun i _ => (Except.ok (Value.vNum (Int.ofNat i)) : Except Unit Value))
          initCell 1 [Value.vNum 7]).cell
        2 [Value.vNum 7]).computeRan = false ∧
    (stage3Invoke env0
        (fun i _ => (Except.ok (Value.vNum (Int.ofNat i)) : Except Unit Value))
        (stage3Invoke env0
          (fun i _ => (Except.ok (Value.vNum (Int.ofNat i)) : Except Unit Value))
          initCell 1 [Value.vNum 7]).cell
        2 [Value.vNum 7]).out = Except.ok (Value.vNum 1) :=
  ⟨rfl, rfl, rfl⟩

/-- C5 amended: under the legacy branch each instance's cell is
exclusively owned — an invocation on one instance leaves every other
instance's cell untouched, and its outcome is a function of the calling
instance's own cell only; under the Stage-3 method branch, by contrast,
a single cell is shared by all instances of the class, so an invocation
on one instance can hit from and overwrite the state observed by
another. -/
theorem c5_instance_isolation_amended {E : Type} (env : EqualsEnv)
    (compute : Nat → List Value → Except E Value) (cells : Nat → Cell)
    (shared : Cell) (i j : Nat) (args : List Value) :
    (j ≠ i → (legacyInvoke env compute cells i args).2 j = cells j) ∧
    ((legacyInvoke env compute cells i args).1
      = invokeCell env (compute i) (cells i) args) ∧
    (stage3Invoke env compute shared i args
      = invokeCell env (compute i) shared args) := by
  refine ⟨fun hj => ?_, rfl, rfl⟩
  simp [legacyInvoke, hj]

/-- C5 witness: with two concrete instances `1` and `2`, an invocation
by instance `1` leaves instance `2`'s cell in its initial state. -/
theorem c5_witness :
    (2 ≠ 1) ∧
    (legacyInvoke env0
        (fun i _ => (Except.ok (Value.vNum (Int.ofNat i)) : Except Unit Value))
        (fun _ => initCell) 1 [Value.vNum 7]).2 2 = (fun _ => initCell) 2 :=
  ⟨by decide,
    (c5_instance_isolation_amended env0
      (fun i _ => (Except.ok (Value.vNum (Int.ofNat i)) : Except Unit Value))
      (fun _ => initCell) initCell 1 2 [Value.vNum 7]).1 (by decide)⟩

/-! ## Claimed properties of the comparator -/

/-- C9: `deepEqual` is a total boolean function (it is defined as a
total Lean function, so it answers on every pair of values and every
integer depth), and any non-positive `maxDepth` yields `false` through
the depth guard. -/
theorem c9_depth_guard (env : EqualsEnv) (a b : Value) (d : Int) :
    (deepEqual env a b d = true ∨ deepEqual env a b d = false) ∧
    (d ≤ 0 → deepEqual env a b d = false) := by
  refine ⟨by cases deepEqual env a b d <;> simp, fun h => ?_⟩
  have ht : d.toNat = 0 := Int.toNat_of_nonpos h
  rw [deepEqual, ht]
  rfl

/-- C9 witness: depth `0` on `null ~ null` (strictly equal values)
still yields `false`. -/
theorem c9_witness :
    ((0 : Int) ≤ 0) ∧ deepEqual env0 Value.vNull Value.vNull 0 = false :=
  ⟨by decide, (c9_depth_guard env0 Value.vNull Value.vNull 0).2 (by decide)⟩

/-- C10: an object that is neither an array, Map, Set, Date nor RegExp,
whose direct prototype is not `Object.prototype`, and which exposes no
`equals` function (an exotic object with `hasEq = false`) compares
equal to no value it is not reference-identical to: every branch of
the comparator falls through to the final `return false`. -/
theorem c10_exotic_identity_only (env : EqualsEnv) (r : Nat) (isFn : Bool)
    (b : Value) (d : Int)
    (h : strictEq (Value.vExotic r isFn false) b = false) :
    deepEqual env (Value.vExotic r isFn false) b d = false := by
  rw [deepEqual]
  cases hn : d.toNat with
  | zero => rfl
  | succ n =>
    cases isFn <;> cases b <;>
      simp_all [deepEqualN, strictEq, isNullish, typeTag, hasEqualsFn, refOf]

/-- C10 witness: two reference-distinct exotic objects (structurally
identical class instances without an `equals` method) are unequal. -/
theorem c10_witness :
    strictEq (Value.vExotic 1 false false) (Value.vExotic 2 false false) = false ∧
    deepEqual env0 (Value.vExotic 1 false false) (Value.vExotic 2 false false) 100
      = false :=
  ⟨by decide,
    c10_exotic_identity_only env0 1 false (Value.vExotic 2 false false) 100 (by decide)⟩

/-! ## The owner object, the decorator branches and the registry -/

/-- Which `memoized` branch decorated a method: the legacy branch
registers the per-instance `clearMemo` under the owner's
`__memoizedClearFns` slot the first time the property is read; the
Stage-3 branch passes no instance to `createMemoizedMethod` and never
registers. -/
inductive DecMode : Type where
  | legacy | stage3
deriving DecidableEq

/-- Observable state of one owner object: the key set of its
`__memoizedClearFns` record (`registry`), the closure state of each
memoized method (`mcells`), and for each memoized getter the own
property installed over the accessor on first access (`gcache`,
`none` while the accessor is still in place). -/
structure OwnerState : Type where
  registry : List String
  mcells : String → Cell
  gcache : String → Option Value

/-- A freshly constructed owner: nothing registered, every method cell
in its initial closure state, every getter not yet accessed. -/
def initOwner : OwnerState := ⟨[], fun _ => initCell, fun _ => none⟩

/-- `clearAllMemoized(instance)`: runs the registered `clearMemo` of
every key of `__memoizedClearFns`, resetting exactly the registered
cells; nothing else is touched (in particular, the registry keeps its
entries and getter caches are not visited). -/
def clearAllMemoized (s : OwnerState) : OwnerState :=
  { s with
    mcells := fun n => if n ∈ s.registry then clearMemo (s.mcells n) else s.mcells n }

/-- A memoized getter access (`memoizedGetter`, identical in both
decorator branches): if an own property was already installed over the
accessor, return its value without computing; otherwise run the
underlying zero-argument computation and install its value over the
accessor with `Object.defineProperty`.  Returns the value produced,
the owner state afterwards, and whether the computation ran. -/
def getterRead (genv : String → Value) (s : OwnerState) (g : String) :
    Value × OwnerState × Bool :=
  match s.gcache g with
  | some v => (v, s, false)
  | none =>
    (genv g,
      { s with gcache := fun n => if n = g then some (genv g) else s.gcache n },
      true)

/-- One observable action on an owner object: a memoized-method call
(`obj.m(args)` — a property read followed by an invocation), a
memoized-getter access, or `clearAllMemoized(obj)`. -/
inductive Event : Type where
  | call : String → List Value → Event
  | getAccess : String → Event
  | clearAll : Event

/-- One step of the owner's life.  A legacy-mode method call registers
the method's `clearMemo` on first access (idempotently) and then
invokes the memoized function against the method's cell; a Stage-3
method call leaves the registry alone. -/
def stepOwner {E : Type} (env : EqualsEnv)
    (fenv : String → List Value → Except E Value) (genv : String → Value)
    (mode : String → DecMode) (s : OwnerState) : Event → OwnerState
  | .call name args =>
    let reg := match mode name with
      | .legacy => if name ∈ s.registry then s.registry else s.registry ++ [name]
      | .stage3 => s.registry
    let r := invokeCell env (fenv name) (s.mcells name) args
    ⟨reg, fun n => if n = name then r.cell else s.mcells n, s.gcache⟩
  | .getAccess g => (getterRead genv s g).2.1
  | .clearAll => clearAllMemoized s

/-- The owner's state after a sequence of actions. -/
def runOwner {E : Type} (env : EqualsEnv)
    (fenv : String → List Value → Except E Value) (genv : String → Value)
    (mode : String → DecMode) (s : OwnerState) : List Event → OwnerState
  | [] => s
  | e :: tr => runOwner env fenv genv mode (stepOwner env fenv genv mode s e) tr

/-- Number of times the underlying computation of getter `g` runs
along a sequence of actions. -/
def getterRuns {E : Type} (env : EqualsEnv)
    (fenv : String → List Value → Except E Value) (genv : String → Value)
    (mode : String → DecMode) (s : OwnerState) : List Event → String → Nat
  | [], _ => 0
  | e :: tr, g =>
    (match e with
     | .getAccess n =>
       if n = g then (if (getterRead genv s n).2.2 then 1 else 0) else 0
     | .call _ _ => 0
     | .clearAll => 0) +
    getterRuns env fenv genv mode (stepOwner env fenv genv mode s e) tr g

/-- A getter access never changes the registry. -/
theorem getterRead_registry (genv : String → Value) (s : OwnerState) (g : String) :
    (getterRead genv s g).2.1.registry = s.registry := by
  cases h : s.gcache g <;> simp [getterRead, h]

/-- A getter access never changes any method cell. -/
theorem getterRead_mcells (genv : String → Value) (s : OwnerState) (g : String) :
    (getterRead genv s g).2.1.mcells = s.mcells := by
  cases h : s.gcache g <;> simp [getterRead, h]

/-- Registry membership after a run: a name is registered exactly when
it was registered before or it is a legacy-mode method that was called
at least once during the run. -/
theorem runOwner_registry_mem {E : Type} (env : EqualsEnv)
    (fenv : String → List Value → Except E Value) (genv : String → Value)
    (mode : String → DecMode) (tr : List Event) (s : OwnerState) (name : String) :
    name ∈ (runOwner env fenv genv mode s tr).registry ↔
      name ∈ s.registry ∨
        (mode name = DecMode.legacy ∧ ∃ args, Event.call name args ∈ tr) := by
  induction tr generalizing s with
  | nil => simp [runOwner]
  | cons e tr ih =>
    rw [runOwner, ih]
    cases e with
    | call n args =>
      have hreg : name ∈ (stepOwner env fenv genv mode s (.call n args)).registry ↔
          name ∈ s.registry ∨ (mode name = DecMode.legacy ∧ name = n) := by
        cases hm : mode n with
        | legacy =>
          by_cases hn : n ∈ s.registry
          · simp only [stepOwner, hm, hn, if_true]
            constructor
            · exact Or.inl
            · rintro (h | ⟨_, he⟩)
              · exact h
              · rw [he]; exact hn
          · simp only [stepOwner, hm, hn, if_false, List.mem_append,
              List.mem_singleton]
            constructor
            · rintro (h | he)
              · exact Or.inl h
              · exact Or.inr ⟨by rw [he]; exact hm, he⟩
            · rintro (h | ⟨_, he⟩)
              · exact Or.inl h
              · exact Or.inr he
        | stage3 =>
          simp only [stepOwner, hm]
          constructor
          · exact Or.inl
          · rintro (h | ⟨hl, he⟩)
            · exact h
            · rw [he] at hl; rw [hl] at hm; cases hm
      rw [hreg]
      have hev : (∃ a, Event.call name a ∈ Event.call n args :: tr) ↔
          ((name = n) ∨ ∃ a, Event.call name a ∈ tr) := by
        constructor
        · rintro ⟨a, ha⟩
          rcases List.mem_cons.mp ha with h1 | h1
          · injection h1 with h2 h3
            exact Or.inl h2
          · exact Or.inr ⟨a, h1⟩
        · rintro (h | ⟨a, ha⟩)
          · exact ⟨args, by rw [h]; exact List.mem_cons_self _ _⟩
          · exact ⟨a, List.mem_cons_of_mem _ ha⟩
      rw [hev]
      tauto
    | getAccess g =>
      have h1 : (stepOwner env fenv genv mode s (.getAccess g)).registry
          = s.registry := getterRead_registry genv s g
      rw [h1]
      have hev : (∃ a, Event.call name a ∈ Event.getAccess g :: tr) ↔
          (∃ a, Event.call name a ∈ tr) := by
        constructor
        · rintro ⟨a, ha⟩
          rcases List.mem_cons.mp ha with h1 | h1
          · cases h1
          · exact ⟨a, h1⟩
        · rintro ⟨a, ha⟩
          exact ⟨a, List.mem_cons_of_mem _ ha⟩
      rw [hev]
    | clearAll =>
      have h1 : (stepOwner env fenv genv mode s .clearAll).registry
          = s.registry := rfl
      rw [h1]
      have hev : (∃ a, Event.call name a ∈ Event.clearAll :: tr) ↔
          (∃ a, Event.call name a ∈ tr) := by
        constructor
        · rintro ⟨a, ha⟩
          rcases List.mem_cons.mp ha with h1 | h1
          · cases h1
          · exact ⟨a, h1⟩
        · rintro ⟨a, ha⟩
          exact ⟨a, List.mem_cons_of_mem _ ha⟩
      rw [hev]

/-- A name that is not registered and is never called keeps its method
cell untouched through a run (and stays unregistered). -/
theorem runOwner_mcells_untouched {E : Type} (env : EqualsEnv)
    (fenv : String → List Value → Except E Value) (genv : String → Value)
    (mode : String → DecMode) (tr : List Event) (s : OwnerState) (name : String)
    (hreg : name ∉ s.registry) (hnc : ∀ args, Event.call name args ∉ tr) :
    (runOwner env fenv genv mode s tr).mcells name = s.mcells name ∧
      name ∉ (runOwner env fenv genv mode s tr).registry := by
  induction tr generalizing s with
  | nil => exact ⟨rfl, hreg⟩
  | cons e tr ih =>
    rw [runOwner]
    have hnc' : ∀ args, Event.call name args ∉ tr := fun a ha =>
      hnc a (List.mem_cons_of_mem _ ha)
    cases e with
    | call n args =>
      have hne : name ≠ n := by
        intro h
        exact hnc args (by rw [h]; exact List.mem_cons_self _ _)
      have h1 : (stepOwner env fenv genv mode s (.call n args)).mcells name
          = s.mcells name := by
        simp [stepOwner, hne]
      have h2 : name ∉ (stepOwner env fenv genv mode s (.call n args)).registry := by
        cases hm : mode n with
        | legacy =>
          by_cases hn : n ∈ s.registry
          · simpa [stepOwner, hm, hn] using hreg
          · simp [stepOwner, hm, hn, List.mem_append, List.mem_singleton, hreg, hne]
        | stage3 => simpa [stepOwner, hm] using hreg
      rcases ih (stepOwner env fenv genv mode s (.call n args)) h2 hnc' with ⟨ha, hb⟩
      exact ⟨by rw [ha, h1], hb⟩
    | getAccess g =>
      have h1 : (stepOwner env fenv genv mode s (.getAccess g)).mcells
          = s.mcells := getterRead_mcells genv s g
      have h2 : name ∉ (stepOwner env fenv genv mode s (.getAccess g)).registry := by
        show name ∉ (getterRead genv s g).2.1.registry
        rw [getterRead_registry genv s g]; exact hreg
      rcases ih (stepOwner env fenv genv mode s (.getAccess g)) h2 hnc' with ⟨ha, hb⟩
      exact ⟨by rw [ha, h1], hb⟩
    | clearAll =>
      have h1 : (stepOwner env fenv genv mode s .clearAll).mcells name
          = s.mcells name := by
        simp [stepOwner, clearAllMemoized, hreg]
      have h2 : name ∉ (stepOwner env fenv genv mode s .clearAll).registry := hreg
      rcases ih (stepOwner env fenv genv mode s .clearAll) h2 hnc' with ⟨ha, hb⟩
      exact ⟨by rw [ha, h1], hb⟩

/-- Concrete method environment for the worked examples: every method
returns `5`. -/
def fenv0 : String → List Value → Except Unit Value :=
  fun _ _ => Except.ok (Value.vNum 5)

/-- Concrete getter environment for the worked examples: every getter
computes `4`. -/
def genv0 : String → Value := fun _ => Value.vNum 4

/-- Decorator-mode assignment placing every method in the Stage-3
branch. -/
def mode0 : String → DecMode := fun _ => DecMode.stage3

/-- C4 counterexample: a Stage-3-decorated method `m` is invoked once
(the computation runs), `clearAllMemoized` is applied to its owner, and
the next call with the same arguments is still a hit — the computation
does not run again, because the Stage-3 branch registered no
`clearMemo` callback and `clearAllMemoized` therefore reset nothing.
This contradicts "clearAllMemoized(owner) ... forces each operation
invoked at least once to recompute on its next call". -/
theorem c4_counterexample :
    (invokeCell env0 (fenv0 "m") (initOwner.mcells "m") [Value.vNum 7]).computeRan
      = true ∧
    (invokeCell env0 (fenv0 "m")
        ((runOwner env0 fenv0 genv0 mode0 initOwner
            [Event.call "m" [Value.vNum 7], Event.clearAll]).mcells "m")
        [Value.vNum 7]).computeRan = false ∧
    (invokeCell env0 (fenv0 "m")
        ((runOwner env0 fenv0 genv0 mode0 initOwner
            [Event.call "m" [Value.vNum 7], Event.clearAll]).mcells "m")
        [Value.vNum 7]).out = Except.ok (Value.vNum 5) :=
  ⟨rfl, rfl, rfl⟩

/-- C4 amended: restricted to legacy-decorated methods.  Starting from
a fresh owner, `clearAllMemoized` resets the cell of every legacy-mode
method invoked at least once (all of which are registered), so its next
call runs the computation again; a method never invoked gains no
registry entry, its cell is still initial and `clearAllMemoized`
leaves it alone; and a Stage-3-decorated method never registers, so
`clearAllMemoized` never touches its cell. -/
theorem c4_clearAll_amended {E : Type} (env : EqualsEnv)
    (fenv : String → List Value → Except E Value) (genv : String → Value)
    (mode : String → DecMode) (tr : List Event) (name : String) :
    (mode name = DecMode.legacy → (∃ args, Event.call name args ∈ tr) →
      name ∈ (runOwner env fenv genv mode initOwner tr).registry ∧
      (clearAllMemoized (runOwner env fenv genv mode initOwner tr)).mcells name
        = initCell ∧
      ∀ args2,
        (invokeCell env (fenv name)
          ((clearAllMemoized (runOwner env fenv genv mode initOwner tr)).mcells name)
          args2).computeRan = true) ∧
    ((∀ args, Event.call name args ∉ tr) →
      name ∉ (runOwner env fenv genv mode initOwner tr).registry ∧
      (runOwner env fenv genv mode initOwner tr).mcells name = initCell ∧
      (clearAllMemoized (runOwner env fenv genv mode initOwner tr)).mcells name
        = (runOwner env fenv genv mode initOwner tr).mcells name) ∧
    (mode name = DecMode.stage3 →
      name ∉ (runOwner env fenv genv mode initOwner tr).registry ∧
      (clearAllMemoized (runOwner env fenv genv mode initOwner tr)).mcells name
        = (runOwner env fenv genv mode initOwner tr).mcells name) := by
  refine ⟨fun hmode hcalled => ?_, fun hnc => ?_, fun hmode => ?_⟩
  · have hmem : name ∈ (runOwner env fenv genv mode initOwner tr).registry := by
      rw [runOwner_registry_mem]
      exact Or.inr ⟨hmode, hcalled⟩
    have hcell : (clearAllMemoized (runOwner env fenv genv mode initOwner tr)).mcells name
        = initCell := by
      simp [clearAllMemoized, hmem, clearMemo, initCell]
    exact ⟨hmem, hcell, fun args2 => by
      rw [hcell]
      exact invoke_notRun_runs env (fenv name) initCell args2 rfl⟩
  · have h := runOwner_mcells_untouched env fenv genv mode tr initOwner name
      (by simp [initOwner]) hnc
    refine ⟨h.2, h.1, ?_⟩
    simp [clearAllMemoized, h.2]
  · have hnot : name ∉ (runOwner env fenv genv mode initOwner tr).registry := by
      rw [runOwner_registry_mem]
      rintro (h | ⟨hl, _⟩)
      · simp [initOwner] at h
      · rw [hmode] at hl; cases hl
    refine ⟨hnot, ?_⟩
    simp [clearAllMemoized, hnot]

/-- C4 witness for the amended statement: a legacy-decorated method
`"m"` called once, then cleared — the cell is reset and the next call
computes; and a never-called `"k"` is unregistered and untouched. -/
theorem c4_witness :
    ((fun _ => DecMode.legacy) "m" = DecMode.legacy) ∧
    (∃ args, Event.call "m" args ∈ [Event.call "m" [Value.vNum 7]]) ∧
    ("m" ∈ (runOwner env0 fenv0 genv0 (fun _ => DecMode.legacy) initOwner
        [Event.call "m" [Value.vNum 7]]).registry ∧
      (clearAllMemoized (runOwner env0 fenv0 genv0 (fun _ => DecMode.legacy) initOwner
          [Event.call "m" [Value.vNum 7]])).mcells "m" = initCell ∧
      ∀ args2,
        (invokeCell env0 (fenv0 "m")
          ((clearAllMemoized (runOwner env0 fenv0 genv0 (fun _ => DecMode.legacy)
              initOwner [Event.call "m" [Value.vNum 7]])).mcells "m")
          args2).computeRan = true) :=
  ⟨rfl, ⟨[Value.vNum 7], List.mem_cons_self _ _⟩,
    (c4_clearAll_amended env0 fenv0 genv0 (fun _ => DecMode.legacy)
      [Event.call "m" [Value.vNum 7]] "m").1 rfl
      ⟨[Value.vNum 7], List.mem_cons_self _ _⟩⟩

/-- Once a getter's own property is installed, no later action removes
it or changes its value. -/
theorem stepOwner_gcache_some {E : Type} (env : EqualsEnv)
    (fenv : String → List Value → Except E Value) (genv : String → Value)
    (mode : String → DecMode) (s : OwnerState) (e : Event) (g : String)
    (v : Value) (h : s.gcache g = some v) :
    (stepOwner env fenv genv mode s e).gcache g = some v := by
  cases e with
  | call n args => simpa [stepOwner] using h
  | clearAll => simpa [stepOwner, clearAllMemoized] using h
  | getAccess n =>
    show (getterRead genv s n).2.1.gcache g = some v
    cases hn : s.gcache n with
    | some w => simpa [getterRead, hn] using h
    | none =>
      have hgn : g ≠ n := by
        intro he
        rw [he, hn] at h
        cases h
      simp [getterRead, hn, hgn]
      exact h

/-- A getter whose own property is installed never computes again along
any later sequence of actions. -/
theorem getterRuns_zero_of_some {E : Type} (env : EqualsEnv)
    (fenv : String → List Value → Except E Value) (genv : String → Value)
    (mode : String → DecMode) (tr : List Event) (s : OwnerState) (g : String)
    (v : Value) (h : s.gcache g = some v) :
    getterRuns env fenv genv mode s tr g = 0 := by
  induction tr generalizing s with
  | nil => rfl
  | cons e tr ih =>
    have htail := ih (stepOwner env fenv genv mode s e)
      (stepOwner_gcache_some env fenv genv mode s e g v h)
    cases e with
    | call n args => simpa [getterRuns] using htail
    | clearAll => simpa [getterRuns] using htail
    | getAccess n =>
      by_cases hn : n = g
      · subst hn
        simp [getterRuns, getterRead, h, htail]
      · simp [getterRuns, hn, htail]

/-- The underlying computation of a memoized getter runs at most once
along any sequence of actions, from any starting state. -/
theorem getterRuns_le_one {E : Type} (env : EqualsEnv)
    (fenv : String → List Value → Except E Value) (genv : String → Value)
    (mode : String → DecMode) (tr : List Event) (s : OwnerState) (g : String) :
    getterRuns env fenv genv mode s tr g ≤ 1 := by
  induction tr generalizing s with
  | nil => exact Nat.zero_le 1
  | cons e tr ih =>
    cases e with
    | call n args =>
      simpa [getterRuns] using ih (stepOwner env fenv genv mode s (.call n args))
    | clearAll =>
      simpa [getterRuns] using ih (stepOwner env fenv genv mode s .clearAll)
    | getAccess n =>
      by_cases hn : n = g
      · subst hn
        cases hg : s.gcache n with
        | some w =>
          have hhead : (getterRead genv s n).2.2 = false := by
            simp [getterRead, hg]
          simpa [getterRuns, hhead]
            using ih (stepOwner env fenv genv mode s (.getAccess n))
        | none =>
          have hafter : (stepOwner env fenv genv mode s (.getAccess n)).gcache n
              = some (genv n) := by
            show (getterRead genv s n).2.1.gcache n = some (genv n)
            simp [getterRead, hg]
          have htail := getterRuns_zero_of_some env fenv genv mode tr
            (stepOwner env fenv genv mode s (.getAccess n)) n (genv n) hafter
          simp [getterRuns, getterRead, hg, htail]
      · simpa [getterRuns, hn]
          using ih (stepOwner env fenv genv mode s (.getAccess n))

/-- C7: along any action sequence on a fresh owner, a memoized
getter's computation runs at most once; an access to an installed
getter returns the installed value, computes nothing and changes
nothing; a getter (any name with no method-call events) gains no
Invalidation-Registry entry; and `clearAllMemoized` leaves every
getter's installed value untouched. -/
theorem c7_getter_once {E : Type} (env : EqualsEnv)
    (fenv : String → List Value → Except E Value) (genv : String → Value)
    (mode : String → DecMode) (tr : List Event) (g : String)
    (s : OwnerState) (v : Value) :
    getterRuns env fenv genv mode initOwner tr g ≤ 1 ∧
    (s.gcache g = some v → getterRead genv s g = (v, s, false)) ∧
    ((∀ args, Event.call g args ∉ tr) →
      g ∉ (runOwner env fenv genv mode initOwner tr).registry) ∧
    (clearAllMemoized s).gcache = s.gcache := by
  refine ⟨getterRuns_le_one env fenv genv mode tr initOwner g,
    fun h => by simp [getterRead, h], fun hnc => ?_, rfl⟩
  rw [runOwner_registry_mem]
  rintro (h | ⟨_, a, ha⟩)
  · simp [initOwner] at h
  · exact hnc a ha

/-- Owner state with the getter `"g"` already installed (value `4`),
used by the C7 witness. -/
def gOwner : OwnerState :=
  ⟨[], fun _ => initCell, fun n => if n = "g" then some (Value.vNum 4) else none⟩

/-- C7 witness: two consecutive accesses to getter `"g"` on a fresh
owner compute at most once; on `gOwner` the access returns the
installed `4` without computing; `"g"` is not registered; and
`clearAllMemoized` keeps the installed value. -/
theorem c7_witness :
    getterRuns env0 fenv0 genv0 mode0 initOwner
      [Event.getAccess "g", Event.getAccess "g"] "g" ≤ 1 ∧
    getterRead genv0 gOwner "g" = (Value.vNum 4, gOwner, false) ∧
    "g" ∉ (runOwner env0 fenv0 genv0 mode0 initOwner
      [Event.getAccess "g", Event.getAccess "g"]).registry ∧
    (clearAllMemoized gOwner).gcache = gOwner.gcache := by
  have h := c7_getter_once env0 fenv0 genv0 mode0
    [Event.getAccess "g", Event.getAccess "g"] "g" gOwner (Value.vNum 4)
  exact ⟨h.1, h.2.1 rfl, h.2.2.1 (by intro args ha; simp at ha), h.2.2.2⟩

/-! ## The time-bounded cell (`memoizedTTL`) -/

/-- Modelled from the spec: the `memoizedTTL` implementation is missing
from the repository sources (only the README, the test suite and the
TTL example refer to it), so the time-bounded cell's state follows §4.3
of the specification — the plain cell's fields plus `computedAt`, the
timestamp of the last successful computation, absent until the first
run. -/
structure TTLCell : Type where
  previousArgs : List Value
  calledOnce : Bool
  cachedResult : Value
  computedAt : Option Int

/-- Modelled from the spec: observable outcome of one invocation of a
time-bounded cell. -/
structure TTLResult (E : Type) : Type where
  out : Except E Value
  cell : TTLCell
  computeRan : Bool

/-- Modelled from the spec: `invoke` on the time-bounded cell (the
missing `memoizedTTL` body, spec §4.3).  `nowT` is the wall-clock
reading taken synchronously at call time.  A hit requires `hasRun`,
the plain-cell argument rule (§4.2) and `elapsed < ttlMillis`; any
miss — argument mismatch or expiry — recomputes and overwrites
`storedArgs`, `storedResult` and `computedAt` (set to the invocation
time); a computation failure propagates and leaves the cell exactly as
it was (§7c). -/
def ttlInvoke {E : Type} (env : EqualsEnv)
    (compute : List Value → Except E Value)
    (ttlMillis : Int) (nowT : Int) (c : TTLCell) (args : List Value) :
    TTLResult E :=
  let elapsedOk :=
    match c.computedAt with
    | some t => decide (nowT - t < ttlMillis)
    | none => false
  if c.calledOnce && argsMatch env c.previousArgs args && elapsedOk then
    ⟨Except.ok c.cachedResult, c, false⟩
  else
    match compute args with
    | Except.ok r => ⟨Except.ok r, ⟨args, true, r, some nowT⟩, true⟩
    | Except.error e => ⟨Except.error e, c, true⟩

/-- C2: a time-bounded cell hits exactly when a run has completed, the
arguments are equal under the plain-cell rule, and strictly less than
`ttlMillis` has elapsed since the stored computation time; a hit
returns the stored result and changes nothing; and once
`elapsed >= ttlMillis` the call is a miss even for identical
arguments — the computation runs and, when it succeeds, `computedAt`
is reset to the new invocation time. -/
theorem c2_ttl_hit_iff_fresh {E : Type} (env : EqualsEnv)
    (compute : List Value → Except E Value) (ttl nowT : Int)
    (c : TTLCell) (args : List Value) :
    ((ttlInvoke env compute ttl nowT c args).computeRan = false ↔
      (c.calledOnce = true ∧ argsMatch env c.previousArgs args = true ∧
        ∃ t, c.computedAt = some t ∧ nowT - t < ttl)) ∧
    ((ttlInvoke env compute ttl nowT c args).computeRan = false →
      (ttlInvoke env compute ttl nowT c args).out = Except.ok c.cachedResult ∧
      (ttlInvoke env compute ttl nowT c args).cell = c) ∧
    (∀ t, c.computedAt = some t → ttl ≤ nowT - t →
      (ttlInvoke env compute ttl nowT c args).computeRan = true ∧
      ∀ r, compute args = Except.ok r →
        (ttlInvoke env compute ttl nowT c args).cell.computedAt = some nowT) := by
  by_cases hhit :
      (c.calledOnce && argsMatch env c.previousArgs args &&
        (match c.computedAt with
         | some t => decide (nowT - t < ttl)
         | none => false)) = true
  · have hred : ttlInvoke env compute ttl nowT c args
        = ⟨Except.ok c.cachedResult, c, false⟩ := by
      rw [ttlInvoke]
      simp only [hhit, if_true]
    rcases Bool.and_eq_true .. ▸ hhit with ⟨h1, h2⟩
    rcases Bool.and_eq_true .. ▸ h1 with ⟨hco, hargs⟩
    refine ⟨?_, fun _ => ⟨by rw [hred], by rw [hred]⟩, fun t hct httl => ?_⟩
    · constructor
      · intro _
        refine ⟨hco, hargs, ?_⟩
        cases hca : c.computedAt with
        | none => rw [hca] at h2; cases h2
        | some t =>
          rw [hca] at h2
          exact ⟨t, rfl, of_decide_eq_true h2⟩
      · intro _
        rw [hred]
    · rw [hct] at h2
      have := of_decide_eq_true h2
      omega
  · have hred : ∀ p : TTLResult E,
        (match compute args with
          | Except.ok r =>
            (⟨Except.ok r, ⟨args, true, r, some nowT⟩, true⟩ : TTLResult E)
          | Except.error e => ⟨Except.error e, c, true⟩) = p →
        ttlInvoke env compute ttl nowT c args = p := by
      intro p hp
      rw [ttlInvoke]
      simp only [Bool.not_eq_true] at hhit
      simp only [hhit, if_false]
      exact hp
    have hran : (ttlInvoke env compute ttl nowT c args).computeRan = true := by
      cases hcp : compute args with
      | ok r => rw [hred _ (by rw [hcp])]
      | error e => rw [hred _ (by rw [hcp])]
    refine ⟨?_, fun habs => ?_, fun t hct httl => ?_⟩
    · constructor
      · intro habs
        rw [hran] at habs
        exact Bool.noConfusion habs
      · rintro ⟨hco, hargs, t, hct, httl⟩
        exfalso
        apply hhit
        rw [hco, hargs, hct]
        simpa using httl
    · exfalso
      rw [hran] at habs
      exact Bool.noConfusion habs
    · refine ⟨hran, fun r hcp => ?_⟩
      rw [hred _ (by rw [hcp])]

/-- C2 witness: a cell computed at time `0` with TTL `100`, re-invoked
with identical arguments at time `150` — expired, so the computation
runs and `computedAt` is reset to `150`; and the same cell re-invoked
at time `10` — fresh, so it hits. -/
theorem c2_witness :
    ((TTLCell.mk [Value.vNum 1] true (Value.vNum 9) (some 0)).computedAt
      = some 0) ∧
    ((100 : Int) ≤ 150 - 0) ∧
    (ttlInvoke env0 (fun _ => (Except.ok (Value.vNum 9) : Except Unit Value))
        100 150 (TTLCell.mk [Value.vNum 1] true (Value.vNum 9) (some 0))
        [Value.vNum 1]).computeRan = true ∧
    (ttlInvoke env0 (fun _ => (Except.ok (Value.vNum 9) : Except Unit Value))
        100 150 (TTLCell.mk [Value.vNum 1] true (Value.vNum 9) (some 0))
        [Value.vNum 1]).cell.computedAt = some 150 ∧
    (ttlInvoke env0 (fun _ => (Except.ok (Value.vNum 9) : Except Unit Value))
        100 10 (TTLCell.mk [Value.vNum 1] true (Value.vNum 9) (some 0))
        [Value.vNum 1]).computeRan = false :=
  ⟨rfl, by decide,
    ((c2_ttl_hit_iff_fresh env0
        (fun _ => (Except.ok (Value.vNum 9) : Except Unit Value)) 100 150
        (TTLCell.mk [Value.vNum 1] true (Value.vNum 9) (some 0))
        [Value.vNum 1]).2.2 0 rfl (by decide)).1,
    ((c2_ttl_hit_iff_fresh env0
        (fun _ => (Except.ok (Value.vNum 9) : Except Unit Value)) 100 150
        (TTLCell.mk [Value.vNum 1] true (Value.vNum 9) (some 0))
        [Value.vNum 1]).2.2 0 rfl (by decide)).2 (Value.vNum 9) rfl,
    ((c2_ttl_hit_iff_fresh env0
        (fun _ => (Except.ok (Value.vNum 9) : Except Unit Value)) 100 10
        (TTLCell.mk [Value.vNum 1] true (Value.vNum 9) (some 0))
        [Value.vNum 1]).1).mpr ⟨rfl, by decide, 0, rfl, by decide⟩⟩

/-! ## NaN and the reflexivity boundary of the comparator -/

/-- Extension of `Value` admitting the IEEE float `NaN` as a comparator
argument.  `NaN` is the one JavaScript number for which `x === x` is
false, so it is the one value on which the comparator's `===` fast path
— and with it reflexivity — fails.  Aggregates keep their `Value`
embedding: in a same-value comparison `deepEqual(x, x)` of an object,
the reference-identity fast path answers `true` before any contents are
inspected, so a `NaN` nested inside an aggregate never influences
`deepEqual(x, x)`; only a top-level `NaN` does, and that is the case
this extension represents. -/
inductive ValueN : Type where
  | base : Value → ValueN
  | vNaN : ValueN

/-- Whether an extended value is `NaN`. -/
def isNaNv : ValueN → Bool
  | .vNaN => true
  | .base _ => false

/-- `===` on extended values: `NaN === y` is false for every `y`,
`NaN` itself included. -/
def strictEqN : ValueN → ValueN → Bool
  | .base a, .base b => strictEq a b
  | _, _ => false

/-- `x == null` on extended values (`NaN` is not nullish). -/
def isNullishN : ValueN → Bool
  | .base a => isNullish a
  | .vNaN => false

/-- `typeof` on extended values (`typeof NaN` is `"number"`). -/
def typeTagN : ValueN → TypeTag
  | .base a => typeTag a
  | .vNaN => .num

/-- `deepEqual` on extended values: the source's guard sequence — depth
guard, `===` fast path, null handling, `typeof` mismatch, primitive
bail-out — applied to the possibly-`NaN` arguments.  A `NaN` argument
is settled by these guards alone (`typeof NaN` is `"number"`, so the
primitive bail-out returns false whenever `===` did not already
answer).  Two non-`NaN` arguments that survive the guards are objects
and continue into the aggregate branches exactly as in `deepEqual`:
re-entering `deepEqual` at the same depth repeats guards that are
already settled and cannot change the outcome, and its recursive calls
pass `depth - 1` as the source does. -/
def deepEqualWithNaN (env : EqualsEnv) (a b : ValueN) (depth : Int) : Bool :=
  if depth ≤ 0 then false
  else if strictEqN a b then true
  else if isNullishN a || isNullishN b then false
  else if typeTagN a ≠ typeTagN b then false
  else if typeTagN a ≠ TypeTag.obj ∧ typeTagN a ≠ TypeTag.func then false
  else
    match a, b with
    | .base x, .base y => deepEqual env x y depth
    | _, _ => false

/-- C8 counterexample: `NaN` is a representable value that nests at
depth `0` — far below the default `maxDepth` of `100`, so the claim's
depth-exhaustion allowance does not apply (the depth guard passes, as
the second conjunct records) — and yet `deepEqual(NaN, NaN, 100)` is
`false`: `NaN === NaN` is false in JavaScript, and the primitive
bail-out then reports unequal.  Reflexivity for every representable
value therefore fails on the program. -/
theorem c8_counterexample :
    deepEqualWithNaN env0 ValueN.vNaN ValueN.vNaN 100 = false ∧
    ¬((100 : Int) ≤ 0) :=
  ⟨rfl, by decide⟩

/-- C8 amended: at the default depth, `deepEqual(x, x)` is `true`
exactly for the representable values other than `NaN`.  For every
non-`NaN` value the `===` fast path answers `true` on a value compared
with itself — value identity for primitives, reference identity for
objects, before any contents are inspected — while for `NaN` the fast
path fails and the primitive bail-out reports `false`, with depth
exhaustion never involved at the default depth. -/
theorem c8_reflexive_iff_not_nan (env : EqualsEnv) (x : ValueN) :
    deepEqualWithNaN env x x 100 = !(isNaNv x) := by
  cases x with
  | vNaN => rfl
  | base v =>
    show deepEqualWithNaN env (.base v) (.base v) 100 = true
    rw [deepEqualWithNaN]
    simp [strictEqN, strictEq_refl]
